import Mathlib

/-!
Shallow embedding of the ocb-dhcp address-allocation core
(src/subnet.go, src/data.go) together with the helper functions it uses
from the krolaw/dhcp4 and willf/bitset libraries.

IPv4 addresses are modelled as their big-endian uint32 value (a `Nat`
smaller than `2 ^ 32`).  `time.Duration` and `time.Time` values are
modelled as `Int` nanosecond counts (the Go zero time is `0`).  Go maps
keyed by MAC strings are modelled as association lists; `minsert`
replaces in place or appends, `merase` removes, mirroring pointer-map
updates up to Go's unspecified iteration order.  `save_data` calls are
modelled by a boolean "saved" result or a save counter on the tracker.
-/

namespace OCB

/-- Modulus of Go's `uint` type (64-bit platforms). -/
def wordMod : Nat := 2 ^ 64

/-- Modulus of Go's `uint32` type. -/
def u32Mod : Nat := 2 ^ 32

/-- Go conversion `uint(x)` of a (possibly negative) `int` value:
two's-complement truncation to 64 bits. -/
def goUint (x : Int) : Nat := (x % (wordMod : Int)).toNat

/-- Go conversion `uint32(x)` of an `int64` value (used on `time.Duration`). -/
def goUint32 (x : Int) : Nat := (x % (u32Mod : Int)).toNat

/-- `dhcp.IPAdd start add` from krolaw/dhcp4: uint32 wraparound addition. -/
def ipAdd (start add : Nat) : Nat := (start + add) % u32Mod

/-- `dhcp.IPRange start stop` from krolaw/dhcp4: the signed count
`stop - start + 1` of addresses in the inclusive range. -/
def ipRange (start stop : Nat) : Int := (stop : Int) - (start : Int) + 1

/-- `dhcp.IPInRange start stop ip` from krolaw/dhcp4:
`start ≤ ip ∧ ip ≤ stop` (byte-lexicographic = numeric on uint32). -/
def ipInRange (start stop ip : Nat) : Bool := decide (start ≤ ip) && decide (ip ≤ stop)

/-- willf/bitset `BitSet`: a length plus the list of set bit indices. -/
structure BitSet where
  length : Nat
  elems : List Nat
deriving DecidableEq

/-- `bitset.New n`. -/
def BitSet.new (n : Nat) : BitSet := ⟨n, []⟩

/-- `BitSet.Test i`: false for out-of-range indices. -/
def BitSet.TestB (b : BitSet) (i : Nat) : Bool :=
  decide (i < b.length) && b.elems.contains i

/-- `BitSet.Set i`: extends the length when `i` is out of range. -/
def BitSet.SetB (b : BitSet) (i : Nat) : BitSet :=
  { length := max b.length (i + 1),
    elems := if b.elems.contains i then b.elems else i :: b.elems }

/-- `BitSet.Clear i`: a silent no-op when `i` is out of range. -/
def BitSet.ClearB (b : BitSet) (i : Nat) : BitSet :=
  if i < b.length then { b with elems := b.elems.erase i } else b

/-- `BitSet.Len`. -/
def BitSet.lenB (b : BitSet) : Nat := b.length

/-- Extensional equality of bitsets (same length, same bits), decidable. -/
def BitSet.equivB (a b : BitSet) : Bool :=
  a.length == b.length &&
    (List.range (max a.length b.length)).all (fun i => a.TestB i == b.TestB i)

/-- `Option` from subnet.go (renamed to avoid the Lean core name):
a DHCP option code plus a templated textual value. -/
structure DhcpOption where
  code : Nat
  value : String
deriving DecidableEq

/-- `Lease` from subnet.go. -/
structure Lease where
  ip : Nat
  mac : String
  valid : Bool
  expireTime : Int
deriving DecidableEq

/-- `Binding` from subnet.go. -/
structure Binding where
  ip : Nat
  mac : String
  options : List DhcpOption
  nextServer : Option String
deriving DecidableEq

/-- `MyIPNet` / `net.IPNet` from data.go: base address and mask,
both uint32 values; `ParseCIDR` guarantees `base = base &&& mask`. -/
structure Cidr where
  base : Nat
  mask : Nat
deriving DecidableEq

/-- `net.IPNet.Contains`. -/
def Cidr.containsIp (c : Cidr) (ip : Nat) : Bool := Nat.land ip c.mask == c.base

/-- Association-list lookup, modelling Go map indexing. -/
def mlookup {α : Type} (k : String) : List (String × α) → Option α
  | [] => none
  | (k', v) :: rest => if k' == k then some v else mlookup k rest

/-- Association-list insert, modelling Go map assignment `m[k] = v`. -/
def minsert {α : Type} (k : String) (v : α) : List (String × α) → List (String × α)
  | [] => [(k, v)]
  | (k', v') :: rest => if k' == k then (k, v) :: rest else (k', v') :: minsert k v rest

/-- Association-list removal, modelling Go `delete(m, k)`. -/
def merase {α : Type} (k : String) : List (String × α) → List (String × α)
  | [] => []
  | p :: rest => if p.1 != k then p :: merase k rest else merase k rest

/-- `Subnet` from subnet.go (mutex omitted; `tenantId` carried by the
management layer only). -/
structure Subnet where
  name : String
  subnet : Cidr
  nextServer : Option Nat
  activeStart : Nat
  activeEnd : Nat
  activeLeaseTime : Int
  activeBits : BitSet
  reservedLeaseTime : Int
  leases : List (String × Lease)
  bindings : List (String × Binding)
  options : List DhcpOption
deriving DecidableEq

/-- `free_lease` from subnet.go.  The boolean result records whether
`dt.save_data()` was called.  The bit-clear index is computed, as in the
source, from `IPRange(lease.Ip, subnet.ActiveStart) - 1`. -/
def Subnet.freeLease (subnet : Subnet) (nic : String) : Subnet × Bool :=
  match mlookup nic subnet.leases with
  | none => (subnet, false)
  | some lease =>
    let bits :=
      if ipInRange subnet.activeStart subnet.activeEnd lease.ip then
        subnet.activeBits.ClearB (goUint (ipRange lease.ip subnet.activeStart - 1))
      else subnet.activeBits
    ({ subnet with activeBits := bits, leases := merase nic subnet.leases }, true)

/-- `find_info` from subnet.go. -/
def Subnet.findInfo (subnet : Subnet) (nic : String) : Option Lease × Option Binding :=
  (mlookup nic subnet.leases, mlookup nic subnet.bindings)

/-- `firstClearBit` from subnet.go: lowest clear bit below the length. -/
def firstClearBit (bs : BitSet) : Option Nat :=
  (List.range bs.lenB).find? (fun i => ! bs.TestB i)

/-- `getFreeIP` from subnet.go, with `time.Now()` passed in as `now`.
Returns (ip?, flag, new state); the flag is the second return value of
the source function (`true` alongside an IP, `save_me` alongside `nil`).
The expiry sweep clears, as in the source, bit
`uint(IPRange(lease.Ip, subnet.ActiveStart) - 1)`. -/
def Subnet.getFreeIP (subnet : Subnet) (now : Int) : Option Nat × Bool × Subnet :=
  match firstClearBit subnet.activeBits with
  | some bit =>
    (some (ipAdd subnet.activeStart bit), true,
      { subnet with activeBits := subnet.activeBits.SetB bit })
  | none =>
    let saveMe := subnet.leases.any (fun p => decide (p.2.expireTime < now))
    let bits := subnet.leases.foldl
      (fun ab p =>
        if decide (p.2.expireTime < now) &&
            ipInRange subnet.activeStart subnet.activeEnd p.2.ip then
          ab.ClearB (goUint (ipRange p.2.ip subnet.activeStart - 1))
        else ab)
      subnet.activeBits
    let s1 := { subnet with
      activeBits := bits,
      leases := subnet.leases.filter (fun p => ! decide (p.2.expireTime < now)) }
    match firstClearBit s1.activeBits with
    | some bit =>
      (some (ipAdd s1.activeStart bit), true,
        { s1 with activeBits := s1.activeBits.SetB bit })
    | none => (none, saveMe, s1)

/-- Slow path of `find_or_get_info` (the write-locked block), entered when
the fast path found no usable lease.  Result: ((lease?, binding?), new
state, saved?). -/
def Subnet.findOrGetSlow (subnet : Subnet) (nic : String) (now : Int) :
    (Option Lease × Option Binding) × Subnet × Bool :=
  let lease := mlookup nic subnet.leases
  let binding := mlookup nic subnet.bindings
  let sameOk :=
    match lease, binding with
    | some l, some b => l.ip == b.ip
    | _, _ => false
  if sameOk then ((lease, binding), subnet, false)
  else
    match binding with
    | some b =>
      let newLease : Lease := { ip := b.ip, mac := nic, valid := true, expireTime := 0 }
      ((some newLease, some b),
        { subnet with leases := minsert nic newLease subnet.leases }, true)
    | none =>
      match subnet.getFreeIP now with
      | (none, saveMe, s1) => ((none, none), s1, saveMe)
      | (some ip, _, s1) =>
        let newLease : Lease := { ip := ip, mac := nic, valid := true, expireTime := 0 }
        ((some newLease, none),
          { s1 with leases := minsert nic newLease s1.leases }, true)

/-- `find_or_get_info` from subnet.go.  The `suggest` argument is part of
the source signature. -/
def Subnet.findOrGetInfo (subnet : Subnet) (nic : String) (suggest : Nat) (now : Int) :
    (Option Lease × Option Binding) × Subnet × Bool :=
  match mlookup nic subnet.leases, mlookup nic subnet.bindings with
  | some l, some b =>
    if l.ip == b.ip then ((some l, some b), subnet, false)
    else subnet.findOrGetSlow nic now
  | some l, none => ((some l, none), subnet, false)
  | none, _ => subnet.findOrGetSlow nic now

/-- `update_lease_time` from subnet.go: sets the lease's expiry to
`now + d` (mutation of the shared `*Lease` modelled as a map update). -/
def Subnet.updateLeaseTime (subnet : Subnet) (nic : String) (now d : Int) : Subnet :=
  { subnet with
    leases := subnet.leases.map
      (fun p => if p.1 == nic then (p.1, { p.2 with expireTime := now + d }) else p) }

/-- `dhcp.OptionRenewalTimeValue`. -/
def optionRenewalTimeValue : Nat := 58

/-- `dhcp.OptionRebindingTimeValue`. -/
def optionRebindingTimeValue : Nat := 59

/-- `dhcp.OptionSubnetMask`. -/
def optionSubnetMask : Nat := 1

/-- `dhcp.OptionBroadcastAddress`. -/
def optionBroadcastAddress : Nat := 28

/-- `binary.BigEndian.PutUint32`: the four big-endian bytes of a uint32. -/
def be32 (n : Nat) : List Nat :=
  [n / 2 ^ 24 % 256, n / 2 ^ 16 % 256, n / 2 ^ 8 % 256, n % 256]

/-- Assignment `opts[c] = v` into a `dhcp.Options` map (assoc list on
option codes; later assignments overwrite earlier ones). -/
def optInsert (m : List (Nat × List Nat)) (c : Nat) (v : List Nat) : List (Nat × List Nat) :=
  match m with
  | [] => [(c, v)]
  | (c', v') :: rest => if c' == c then (c, v) :: rest else (c', v') :: optInsert rest c v

/-- Lookup in a `dhcp.Options` map. -/
def optLookup (c : Nat) : List (Nat × List Nat) → Option (List Nat)
  | [] => none
  | (c', v) :: rest => if c' == c then some v else optLookup c rest

/-- `build_options` from subnet.go.  The Go text/template rendering of
`Option.RenderToDHCP` (external `text/template` engine plus the
per-code decoder) is abstracted as the `render` oracle; `none` models a
render error, which the source logs and skips.  The renewal and
rebinding values are computed, as in the source, from
`uint32(lt) / 2` and `uint32(lt) * 3 / 4` where `lt` is the
`time.Duration` (a nanosecond count). -/
def Subnet.buildOptions (s : Subnet) (binding : Option Binding)
    (render : DhcpOption → Option (Nat × List Nat)) :
    List (Nat × List Nat) × Int :=
  let lt := match binding with
    | none => s.activeLeaseTime
    | some _ => s.reservedLeaseTime
  let opts : List (Nat × List Nat) := []
  let opts := optInsert opts optionRenewalTimeValue (be32 (goUint32 lt / 2))
  let opts := optInsert opts optionRebindingTimeValue (be32 (goUint32 lt * 3 % u32Mod / 4))
  let opts := s.options.foldl
    (fun o opt => match render opt with
      | none => o
      | some (c, v) => optInsert o c v) opts
  let opts := match binding with
    | none => opts
    | some b => b.options.foldl
        (fun o opt => match render opt with
          | none => o
          | some (c, v) => optInsert o c v) opts
  (opts, lt)

/-- `DataTracker` from data.go; `saves` counts `save_data` calls. -/
structure DataTracker where
  subnets : List (String × Subnet)
  saves : Nat
deriving DecidableEq

/-- `save_data` from data.go (serialization and file write abstracted as
a persistence counter). -/
def DataTracker.saveData (dt : DataTracker) : DataTracker :=
  { dt with saves := dt.saves + 1 }

/-- `FindSubnet` from data.go (first subnet whose CIDR contains `ip`;
Go map order modelled by list order). -/
def DataTracker.FindSubnet (dt : DataTracker) (ip : Nat) : Option Subnet :=
  (dt.subnets.find? (fun p => p.2.subnet.containsIp ip)).map Prod.snd

/-- `subnetsOverlap` from data.go. -/
def DataTracker.subnetsOverlap (dt : DataTracker) (subnet : Subnet) : Bool :=
  dt.subnets.any (fun p =>
    p.2.subnet.containsIp subnet.subnet.base || subnet.subnet.containsIp p.2.subnet.base)

/-- `AddSubnet` from data.go.  Result: (new state, error message?, HTTP status). -/
def DataTracker.AddSubnet (dt : DataTracker) (s : Subnet) :
    DataTracker × Option String × Nat :=
  match mlookup s.name dt.subnets with
  | some _ => (dt, some "Already exists", 409)
  | none =>
    if dt.subnetsOverlap s then
      (dt, some "Subnet overlaps with existing subnet", 400)
    else
      (({ dt with subnets := minsert s.name s dt.subnets }).saveData, none, 200)

/-- `RemoveSubnet` from data.go. -/
def DataTracker.RemoveSubnet (dt : DataTracker) (subnetName : String) :
    DataTracker × Option String × Nat :=
  match mlookup subnetName dt.subnets with
  | none => (dt, some "Not Found", 404)
  | some _ =>
    (({ dt with subnets := merase subnetName dt.subnets }).saveData, none, 200)

/-- `ReplaceSubnet` from data.go: carries leases, bindings and
activeBits from the old subnet into the replacement, removes the old
subnet, checks overlap against the remaining subnets (restoring the old
one on overlap), otherwise inserts the replacement and persists. -/
def DataTracker.ReplaceSubnet (dt : DataTracker) (subnetName : String) (subnet : Subnet) :
    DataTracker × Option String × Nat :=
  match mlookup subnetName dt.subnets with
  | none => (dt, some "Not Found", 404)
  | some lsubnet =>
    let subnet := { subnet with
      leases := lsubnet.leases,
      bindings := lsubnet.bindings,
      activeBits := lsubnet.activeBits }
    let dt1 := { dt with subnets := merase lsubnet.name dt.subnets }
    if dt1.subnetsOverlap subnet then
      ({ dt1 with subnets := minsert lsubnet.name lsubnet dt1.subnets },
        some "Subnet overlaps with existing subnet", 400)
    else
      (({ dt1 with subnets := minsert subnet.name subnet dt1.subnets }).saveData,
        none, 200)

/-- `AddBinding` from data.go: clears the bit of a pre-existing binding
for the same MAC, sets the new binding's bit when in the active range,
stores the binding and persists. -/
def DataTracker.AddBinding (dt : DataTracker) (subnetName : String) (binding : Binding) :
    DataTracker × Option String × Nat :=
  match mlookup subnetName dt.subnets with
  | none => (dt, some "Not Found", 404)
  | some l =>
    let bits1 :=
      match mlookup binding.mac l.bindings with
      | some b =>
        if ipInRange l.activeStart l.activeEnd b.ip then
          l.activeBits.ClearB (goUint (ipRange l.activeStart b.ip - 1))
        else l.activeBits
      | none => l.activeBits
    let bits2 :=
      if ipInRange l.activeStart l.activeEnd binding.ip then
        bits1.SetB (goUint (ipRange l.activeStart binding.ip - 1))
      else bits1
    let l' := { l with activeBits := bits2, bindings := minsert binding.mac binding l.bindings }
    (({ dt with subnets := minsert subnetName l' dt.subnets }).saveData, none, 200)

/-- `DeleteBinding` from data.go: clears the binding's bit when in the
active range, removes the binding and persists. -/
def DataTracker.DeleteBinding (dt : DataTracker) (subnetName mac : String) :
    DataTracker × Option String × Nat :=
  match mlookup subnetName dt.subnets with
  | none => (dt, some "Subnet Not Found", 404)
  | some l =>
    match mlookup mac l.bindings with
    | none => (dt, some "Binding Not Found", 404)
    | some b =>
      let bits :=
        if ipInRange l.activeStart l.activeEnd b.ip then
          l.activeBits.ClearB (goUint (ipRange l.activeStart b.ip - 1))
        else l.activeBits
      let l' := { l with activeBits := bits, bindings := merase mac l.bindings }
      (({ dt with subnets := minsert subnetName l' dt.subnets }).saveData, none, 200)

/-- `apiSubnet` from subnet.go: the persisted (JSON) shape of a subnet.
The string forms of IPs and the CIDR are modelled structurally (print
then parse of a valid address is the identity); lease times are second
counts. -/
structure ApiSubnet where
  name : String
  subnet : Cidr
  nextServer : Option Nat
  activeStart : Nat
  activeEnd : Nat
  activeLeaseTime : Int
  reservedLeaseTime : Int
  leases : List Lease
  bindings : List Binding
  options : List DhcpOption
deriving DecidableEq

/-- Nanoseconds in `time.Second`. -/
def nanosPerSecond : Int := 1000000000

/-- Dotted-quad rendering of a uint32 address (`net.IP.String`). -/
def ipString (n : Nat) : String :=
  toString (n / 2 ^ 24 % 256) ++ "." ++ toString (n / 2 ^ 16 % 256) ++ "." ++
    toString (n / 2 ^ 8 % 256) ++ "." ++ toString (n % 256)

/-- `Subnet.MarshalJSON` from subnet.go, up to JSON text: the
`apiSubnet` value it serializes.  `int(d.Seconds())` truncates toward
zero. -/
def Subnet.marshal (s : Subnet) : ApiSubnet :=
  { name := s.name
    subnet := s.subnet
    nextServer := s.nextServer
    activeStart := s.activeStart
    activeEnd := s.activeEnd
    activeLeaseTime := Int.tdiv s.activeLeaseTime nanosPerSecond
    reservedLeaseTime := Int.tdiv s.reservedLeaseTime nanosPerSecond
    leases := s.leases.map Prod.snd
    bindings := s.bindings.map Prod.snd
    options := s.options }

/-- `Subnet.UnmarshalJSON` from subnet.go, up to JSON text: rebuilds the
lease and binding maps, reconstructs `activeBits` (bit
`IPRange(start, ip) - 1` for every in-range record), applies the
zero-value lease-time defaults, and appends the synthesized subnet-mask
and broadcast-address options unconditionally. -/
def Subnet.unmarshal (as : ApiSubnet) : Except String Subnet :=
  if ! as.subnet.containsIp as.activeStart then .error "ActiveStart not in Subnet"
  else if ! as.subnet.containsIp as.activeEnd then .error "ActiveEnd not in Subnet"
  else
    let alt0 := as.activeLeaseTime * nanosPerSecond
    let rlt0 := as.reservedLeaseTime * nanosPerSecond
    let bits0 := BitSet.new (goUint (ipRange as.activeStart as.activeEnd))
    let alt := if alt0 == 0 then 30 * nanosPerSecond else alt0
    let rlt := if rlt0 == 0 then 7200 * nanosPerSecond else rlt0
    let acc1 := as.leases.foldl
      (fun (acc : List (String × Lease) × BitSet) v =>
        (minsert v.mac v acc.1,
          if ipInRange as.activeStart as.activeEnd v.ip then
            acc.2.SetB (goUint (ipRange as.activeStart v.ip - 1))
          else acc.2))
      ([], bits0)
    let acc2 := as.bindings.foldl
      (fun (acc : List (String × Binding) × BitSet) v =>
        (minsert v.mac v acc.1,
          if ipInRange as.activeStart as.activeEnd v.ip then
            acc.2.SetB (goUint (ipRange as.activeStart v.ip - 1))
          else acc.2))
      ([], acc1.2)
    let bcast := Nat.lor as.subnet.base (u32Mod - 1 - as.subnet.mask)
    .ok { name := as.name
          subnet := as.subnet
          nextServer := as.nextServer
          activeStart := as.activeStart
          activeEnd := as.activeEnd
          activeLeaseTime := alt
          reservedLeaseTime := rlt
          activeBits := acc2.2
          leases := acc1.1
          bindings := acc2.1
          options := as.options ++
            [⟨optionSubnetMask, ipString as.subnet.mask⟩,
             ⟨optionBroadcastAddress, ipString bcast⟩] }

/-- The subnet `ReplaceSubnet` actually installs: the replacement with
the old subnet's leases, bindings and activeBits carried forward. -/
def carryForward (old sub : Subnet) : Subnet :=
  { sub with leases := old.leases, bindings := old.bindings, activeBits := old.activeBits }

/-- Extensional equality of subnet repositories (Go maps have no
iteration order): same lookup result on every key of either map. -/
def subnetsEquivB (m1 m2 : List (String × Subnet)) : Bool :=
  (m1.map Prod.fst ++ m2.map Prod.fst).all (fun k => mlookup k m1 == mlookup k m2)

/-- The activeBits invariant: the bitset has exactly the active range's
size, and bit `i` is set iff some lease or binding has IP
`activeStart + i`. -/
def recordBitsOk (s : Subnet) : Bool :=
  (s.activeBits.length == goUint (ipRange s.activeStart s.activeEnd)) &&
  (List.range s.activeBits.length).all (fun i =>
    s.activeBits.TestB i ==
      (s.leases.any (fun p => p.2.ip == s.activeStart + i) ||
        s.bindings.any (fun p => p.2.ip == s.activeStart + i)))

/-- Projection of a successful `unmarshal` result. -/
def okOf : Except String Subnet → Option Subnet
  | .ok s => some s
  | .error _ => none

/-! Concrete states used for counterexamples and witnesses.
`10.0.0.0 = 167772160`, `10.0.0.10 = 167772170`, `10.0.0.11 = 167772171`,
`10.0.0.12 = 167772172`, `10.0.0.128 = 167772288`,
`/24` mask `= 4294967040`, `/25` mask `= 4294967168`,
`192.168.0.0 = 3232235520`, `172.16.0.0 = 2886729728`. -/

/-- The network 10.0.0.0/24. -/
def cidr24 : Cidr := ⟨167772160, 4294967040⟩

/-- The network 10.0.0.128/25 (contained in 10.0.0.0/24). -/
def cidr25 : Cidr := ⟨167772288, 4294967168⟩

/-- A lease for 10.0.0.11. -/
def leaseC1 : Lease := ⟨167772171, "aa:bb:cc:00:00:01", true, 0⟩

/-- Subnet 10.0.0.0/24, active range 10.0.0.10-10.0.0.12, one lease for
10.0.0.11 with its bit (bit 1) set. -/
def subC1 : Subnet :=
  { name := "sub1"
    subnet := cidr24
    nextServer := none
    activeStart := 167772170
    activeEnd := 167772172
    activeLeaseTime := 30 * nanosPerSecond
    activeBits := ⟨3, [1]⟩
    reservedLeaseTime := 7200 * nanosPerSecond
    leases := [("aa:bb:cc:00:00:01", leaseC1)]
    bindings := []
    options := [] }

/-- Same subnet with an empty pool (for the fast path of getFreeIP). -/
def subC2a : Subnet := { subC1 with activeBits := ⟨3, []⟩, leases := [] }

/-- Active range of size 2, full bitset, both leases expired at time 5. -/
def subC2b : Subnet :=
  { subC1 with
    activeEnd := 167772171
    activeBits := ⟨2, [0, 1]⟩
    leases := [("aa:bb:cc:00:00:01", ⟨167772170, "aa:bb:cc:00:00:01", true, 5⟩),
               ("aa:bb:cc:00:00:02", ⟨167772171, "aa:bb:cc:00:00:02", true, 5⟩)] }

/-- Subnet with an empty pool and no leases, lease time 30s. -/
def subC7 : Subnet := { subC1 with leases := [], activeBits := ⟨3, []⟩ }

/-- A binding outside the active range. -/
def bindC7 : Binding := ⟨167772220, "aa:bb:cc:00:00:07", [], none⟩

/-- A repository holding only `subC1`. -/
def dt6 : DataTracker := ⟨[("sub1", subC1)], 0⟩

/-- A subnet named like `subC1` whose CIDR 10.0.0.128/25 overlaps it. -/
def subNew6 : Subnet := { subC1 with subnet := cidr25 }

/-- A fresh name but an overlapping CIDR. -/
def subOv6 : Subnet := { subC1 with name := "sub3", subnet := cidr25 }

/-- A fresh name and a disjoint CIDR 192.168.0.0/24. -/
def subFresh6 : Subnet := { subC1 with name := "sub2", subnet := ⟨3232235520, 4294967040⟩ }

/-- Subnet whose only record is a lease for 10.0.0.10 (bit 0 set). -/
def subC8 : Subnet :=
  { subC1 with
    activeBits := ⟨3, [0]⟩
    leases := [("aa:bb:cc:00:00:01", ⟨167772170, "aa:bb:cc:00:00:01", true, 0⟩)]
    bindings := [] }

/-- A binding for a different MAC on the lease's IP 10.0.0.10. -/
def bindC8 : Binding := ⟨167772170, "aa:bb:cc:00:00:02", [], none⟩

/-- A repository holding only `subC8`. -/
def dt8 : DataTracker := ⟨[("sub1", subC8)], 0⟩

/-- A binding outside the active range, for the C8 witness. -/
def bindC8w : Binding := ⟨167772200, "aa:bb:cc:00:00:03", [], none⟩

/-- Subnet with an expired lease for one MAC and room in the pool. -/
def subC9 : Subnet :=
  { subC1 with
    activeBits := ⟨3, [1]⟩
    leases := [("aa:bb:cc:00:00:01", ⟨167772171, "aa:bb:cc:00:00:01", true, 5⟩)] }

/-- Subnet 172.16.0.0/24 for the C10 witness (the overwritten one). -/
def subB10 : Subnet :=
  { subC1 with
    name := "s2"
    subnet := ⟨2886729728, 4294967040⟩
    activeStart := 2886729738
    activeEnd := 2886729740
    activeBits := ⟨3, []⟩
    leases := []
    bindings := [] }

/-- Subnet 10.0.0.0/24 named s1 for the C10 witness (the replaced one). -/
def subA10 : Subnet := { subC1 with name := "s1" }

/-- Repository with s1 and s2 for the C10 witness. -/
def dt10 : DataTracker := ⟨[("s1", subA10), ("s2", subB10)], 0⟩

/-- Replacement for s1 whose name collides with s2: 192.168.0.0/24. -/
def subNew10 : Subnet :=
  { subC1 with
    name := "s2"
    subnet := ⟨3232235520, 4294967040⟩
    activeStart := 3232235530
    activeEnd := 3232235532
    activeBits := ⟨3, []⟩
    leases := []
    bindings := [] }

/-- Replacement for s1 whose CIDR 172.16.0.0/25 overlaps s2 (for the
C5 witness's overlap branch). -/
def subRepl5ov : Subnet :=
  { subC1 with
    name := "s1"
    subnet := ⟨2886729728, 4294967168⟩ }

/-- Replacement for s1 with the same CIDR but a new lease time (for the
C5 witness's success branch). -/
def subRepl5ok : Subnet :=
  { subC1 with
    name := "s1"
    activeLeaseTime := 60 * nanosPerSecond
    leases := []
    bindings := []
    activeBits := ⟨3, []⟩ }

/-- A well-formed subnet with a lease, a binding, and the two synthetic
options already present (the state right after a load), for C4. -/
def subC4 : Subnet :=
  { name := "sub1"
    subnet := cidr24
    nextServer := some 167772161
    activeStart := 167772170
    activeEnd := 167772172
    activeLeaseTime := 30 * nanosPerSecond
    activeBits := ⟨3, [1, 2]⟩
    reservedLeaseTime := 7200 * nanosPerSecond
    leases := [("aa:bb:cc:00:00:01", ⟨167772171, "aa:bb:cc:00:00:01", true, 0⟩)]
    bindings := [("aa:bb:cc:00:00:02", ⟨167772172, "aa:bb:cc:00:00:02", [], none⟩)]
    options := [⟨optionSubnetMask, "255.255.255.0"⟩,
                ⟨optionBroadcastAddress, "10.0.0.255"⟩] }

/-! ## Association-list lemmas -/

theorem mlookup_minsert {α : Type} (k a : String) (v : α) (m : List (String × α)) :
    mlookup k (minsert a v m) = if a = k then some v else mlookup k m := by
  induction m with
  | nil => by_cases h2 : a = k <;> simp [minsert, mlookup, h2]
  | cons p rest ih =>
    by_cases h : p.1 = a
    · by_cases h2 : a = k <;> simp [minsert, mlookup, h, h2]
    · by_cases h2 : p.1 = k
      · have h3 : ¬ a = k := fun hak => h (h2.trans hak.symm)
        have h4 : ¬ k = a := fun hka => h3 hka.symm
        simp [minsert, mlookup, h, h2, h3, h4]
      · simp [minsert, mlookup, h, h2, ih]

theorem mlookup_merase {α : Type} (k a : String) (m : List (String × α)) :
    mlookup k (merase a m) = if a = k then none else mlookup k m := by
  induction m with
  | nil => by_cases h2 : a = k <;> simp [merase, mlookup, h2]
  | cons p rest ih =>
    by_cases h : p.1 = a
    · by_cases h2 : a = k
      · subst h2
        simp only [merase, mlookup, h, bne_self_eq_false, if_false, ite_false]
        simpa using ih
      · have h4 : ¬ p.1 = k := fun hpk => h2 (h.symm.trans hpk)
        simp [merase, mlookup, h, h2, h4, ih]
    · by_cases h2 : p.1 = k
      · have h3 : ¬ a = k := fun hak => h (h2.trans hak.symm)
        have h4 : ¬ k = a := fun hka => h3 hka.symm
        simp [merase, mlookup, h, h2, h3, h4]
      · simp [merase, mlookup, h, h2, ih]

theorem minsert_absent {α : Type} (k : String) (v : α) (m : List (String × α))
    (h : mlookup k m = none) : minsert k v m = m ++ [(k, v)] := by
  induction m with
  | nil => simp [minsert]
  | cons p rest ih =>
    simp only [mlookup] at h
    by_cases h2 : p.1 = k
    · simp [h2] at h
    · simp only [h2, if_false, beq_iff_eq] at h
      simp [minsert, h2, ih h]

theorem merase_absent {α : Type} (k : String) (m : List (String × α))
    (h : mlookup k m = none) : merase k m = m := by
  induction m with
  | nil => rfl
  | cons p rest ih =>
    simp only [mlookup] at h
    by_cases h2 : p.1 = k
    · simp [h2] at h
    · simp only [h2, if_false, beq_iff_eq] at h
      simp [merase, h2, ih h]

/-! ## Claim theorems -/

/-- C1: falsified (code bug).  The spec and claim say `freeLease`
clears the removed lease's bit when its IP is in the active range, and
that bit `i` of `activeBits` is set iff a lease or binding holds
`activeStart + i`.  On `subC1` (one lease at `activeStart + 1`, bit 1
set) `free_lease` removes the lease but leaves bit 1 set: the source
computes the clear index as `uint(IPRange(lease.Ip, ActiveStart) - 1)`
(arguments reversed relative to every other call site), which underflows
to `2^64 - 1`, and the out-of-range `Clear` is a silent no-op. -/
theorem c1_freeLease_leaves_bit_set :
    (subC1.freeLease "aa:bb:cc:00:00:01").1.leases = [] ∧
    (subC1.freeLease "aa:bb:cc:00:00:01").1.bindings = [] ∧
    (subC1.freeLease "aa:bb:cc:00:00:01").1.activeBits.TestB 1 = true ∧
    (subC1.freeLease "aa:bb:cc:00:00:01").2 = true := by decide

/-- C2: falsified (code bug).  On `subC2a` (a clear bit available)
`getFreeIP` returns the lowest free IP with second component `true`,
where the claim requires `reclaimed = false`; and on `subC2b` (full
bitset, both leases expired) the sweep removes both leases but clears
only bit 0 — the bit of the lease at `activeStart + 1` stays set with no
lease or binding behind it, because the sweep's clear index
`uint(IPRange(lease.Ip, ActiveStart) - 1)` underflows as in C1. -/
theorem c2_getFreeIP_divergence :
    (subC2a.getFreeIP 100).1 = some 167772170 ∧
    (subC2a.getFreeIP 100).2.1 = true ∧
    (subC2b.getFreeIP 100).1 = some 167772170 ∧
    (subC2b.getFreeIP 100).2.2.leases = [] ∧
    (subC2b.getFreeIP 100).2.2.activeBits.TestB 1 = true := by decide

/-- C3: confirmed.  `find_or_get_info` never reads its `suggest`
argument, so any two suggested IPs produce the same (lease, binding)
result, the same post-state and the same persistence behaviour; an
arbitrary requested address is never granted. -/
theorem c3_suggestion_never_changes_outcome (s : Subnet) (nic : String)
    (sug1 sug2 : Nat) (now : Int) :
    s.findOrGetInfo nic sug1 now = s.findOrGetInfo nic sug2 now := rfl

/-- C7: falsified (code bug).  With a 30-second `activeLeaseTime` and no
binding, the claim requires option 58 to carry 15 seconds (big-endian
u32) and option 59 to carry 22 seconds; the source instead computes
`uint32(lt)/2` and `uint32(lt)*3/4` on `lt` expressed in nanoseconds,
truncated mod `2^32`, emitting 2115098112 and 1025163520. The
lease-time-policy half of the claim (reserved with a binding, active
without) does hold. -/
theorem c7_times_not_in_seconds :
    optLookup optionRenewalTimeValue (subC7.buildOptions none (fun _ => none)).1 =
      some (be32 2115098112) ∧
    optLookup optionRebindingTimeValue (subC7.buildOptions none (fun _ => none)).1 =
      some (be32 1025163520) ∧
    be32 2115098112 ≠ be32 (30 / 2) ∧
    be32 1025163520 ≠ be32 (30 * 3 / 4) ∧
    (subC7.buildOptions none (fun _ => none)).2 = subC7.activeLeaseTime ∧
    (subC7.buildOptions (some bindC7) (fun _ => none)).2 = subC7.reservedLeaseTime := by
  decide

/-- C6 counterexample: the claim says `addSubnet` fails with BadRequest
(400) exactly when the CIDR overlaps an existing subnet; here the new
subnet both reuses the taken name "sub1" and overlaps, and the code
returns Conflict (409), not 400, because the name check runs first. -/
theorem c6_counterexample :
    dt6.subnetsOverlap subNew6 = true ∧
    (dt6.AddSubnet subNew6).2.2 = 409 ∧
    (dt6.AddSubnet subNew6).2.2 ≠ 400 ∧
    (dt6.AddSubnet subNew6).1 = dt6 := by decide

/-- C6 amended: `addSubnet` returns Conflict (409) iff the name is
taken; BadRequest (400) iff the name is free and the CIDR overlaps an
existing subnet; in both failure cases the repository is unchanged; a
free name without overlap inserts the subnet and persists. -/
theorem c6_addSubnet_amended (dt : DataTracker) (s : Subnet) :
    ((mlookup s.name dt.subnets).isSome = true →
      dt.AddSubnet s = (dt, some "Already exists", 409)) ∧
    (mlookup s.name dt.subnets = none → dt.subnetsOverlap s = true →
      dt.AddSubnet s = (dt, some "Subnet overlaps with existing subnet", 400)) ∧
    (mlookup s.name dt.subnets = none → dt.subnetsOverlap s = false →
      dt.AddSubnet s = (⟨minsert s.name s dt.subnets, dt.saves + 1⟩, none, 200)) := by
  refine ⟨?_, ?_, ?_⟩
  · intro h
    cases hm : mlookup s.name dt.subnets with
    | none => rw [hm] at h; simp at h
    | some v => simp [DataTracker.AddSubnet, hm]
  · intro hm hov
    simp [DataTracker.AddSubnet, hm, hov]
  · intro hm hov
    simp [DataTracker.AddSubnet, hm, hov, DataTracker.saveData]

/-- C6 witness: the three branches of the amended theorem at concrete
repositories. -/
theorem c6_addSubnet_amended_witness :
    dt6.AddSubnet subNew6 = (dt6, some "Already exists", 409) ∧
    dt6.AddSubnet subOv6 = (dt6, some "Subnet overlaps with existing subnet", 400) ∧
    dt6.AddSubnet subFresh6 =
      (⟨minsert subFresh6.name subFresh6 dt6.subnets, dt6.saves + 1⟩, none, 200) :=
  ⟨(c6_addSubnet_amended dt6 subNew6).1 (by decide),
   (c6_addSubnet_amended dt6 subOv6).2.1 (by decide) (by decide),
   (c6_addSubnet_amended dt6 subFresh6).2.2 (by decide) (by decide)⟩

theorem subnetsEquivB_of_lookup {m1 m2 : List (String × Subnet)}
    (h : ∀ k, mlookup k m1 = mlookup k m2) : subnetsEquivB m1 m2 = true := by
  simp only [subnetsEquivB, List.all_eq_true]
  intro k _
  simp [h k]

/-- C5: confirmed (with the well-formedness assumption that the map key
equals the stored subnet's name, which every insertion path maintains).
`replaceSubnet` returns NotFound unchanged on an absent name; on an
overlap with a remaining subnet it restores the old subnet, so every
lookup gives the pre-call result and nothing is persisted; otherwise it
installs the replacement carrying the old subnet's leases, bindings and
activeBits unchanged and persists. -/
theorem c5_replaceSubnet_frame (dt : DataTracker) (nm : String) (sub : Subnet) :
    (mlookup nm dt.subnets = none →
      dt.ReplaceSubnet nm sub = (dt, some "Not Found", 404)) ∧
    (∀ old, mlookup nm dt.subnets = some old → old.name = nm →
      ((({ dt with subnets := merase nm dt.subnets } : DataTracker).subnetsOverlap
          (carryForward old sub) = true →
        (dt.ReplaceSubnet nm sub).2.2 = 400 ∧
        subnetsEquivB (dt.ReplaceSubnet nm sub).1.subnets dt.subnets = true ∧
        (dt.ReplaceSubnet nm sub).1.saves = dt.saves) ∧
      (({ dt with subnets := merase nm dt.subnets } : DataTracker).subnetsOverlap
          (carryForward old sub) = false →
        (dt.ReplaceSubnet nm sub).2.2 = 200 ∧
        mlookup sub.name (dt.ReplaceSubnet nm sub).1.subnets =
          some (carryForward old sub) ∧
        (dt.ReplaceSubnet nm sub).1.saves = dt.saves + 1))) := by
  refine ⟨?_, ?_⟩
  · intro h
    simp [DataTracker.ReplaceSubnet, h]
  · intro old hold hname
    subst hname
    refine ⟨?_, ?_⟩
    · intro hov
      have key : dt.ReplaceSubnet old.name sub =
          ({ dt with subnets := minsert old.name old (merase old.name dt.subnets) },
            some "Subnet overlaps with existing subnet", 400) := by
        simp [DataTracker.ReplaceSubnet, hold, carryForward] at hov ⊢
        simp [hov]
      rw [key]
      refine ⟨rfl, ?_, rfl⟩
      apply subnetsEquivB_of_lookup
      intro k
      rw [mlookup_minsert, mlookup_merase]
      by_cases hk : old.name = k
      · simp only [hk, if_true]
        rw [← hk]
        exact hold.symm
      · simp [hk]
    · intro hov
      have key : dt.ReplaceSubnet old.name sub =
          (({ dt with subnets := (minsert (carryForward old sub).name
              (carryForward old sub) (merase old.name dt.subnets)) }
            : DataTracker).saveData, none, 200) := by
        simp [DataTracker.ReplaceSubnet, hold, carryForward] at hov ⊢
        simp [hov]
      rw [key]
      refine ⟨rfl, ?_, rfl⟩
      simp [DataTracker.saveData, mlookup_minsert, carryForward]

/-- C5 witness: the three branches at concrete repositories: an absent
name, a replacement overlapping the remaining subnet, and a same-CIDR
replacement that succeeds carrying the records forward. -/
theorem c5_replaceSubnet_frame_witness :
    (dt10.ReplaceSubnet "zzz" subRepl5ok = (dt10, some "Not Found", 404)) ∧
    ((dt10.ReplaceSubnet "s1" subRepl5ov).2.2 = 400 ∧
      subnetsEquivB (dt10.ReplaceSubnet "s1" subRepl5ov).1.subnets dt10.subnets = true ∧
      (dt10.ReplaceSubnet "s1" subRepl5ov).1.saves = dt10.saves) ∧
    ((dt10.ReplaceSubnet "s1" subRepl5ok).2.2 = 200 ∧
      mlookup subRepl5ok.name (dt10.ReplaceSubnet "s1" subRepl5ok).1.subnets =
        some (carryForward subA10 subRepl5ok) ∧
      (dt10.ReplaceSubnet "s1" subRepl5ok).1.saves = dt10.saves + 1) :=
  ⟨(c5_replaceSubnet_frame dt10 "zzz" subRepl5ok).1 (by decide),
   ((c5_replaceSubnet_frame dt10 "s1" subRepl5ov).2 subA10 (by decide) (by decide)).1
     (by decide),
   ((c5_replaceSubnet_frame dt10 "s1" subRepl5ok).2 subA10 (by decide) (by decide)).2
     (by decide)⟩

theorem merase_append {α : Type} (k : String) (m1 m2 : List (String × α)) :
    merase k (m1 ++ m2) = merase k m1 ++ merase k m2 := by
  induction m1 with
  | nil => rfl
  | cons p rest ih => by_cases h : p.1 = k <;> simp [merase, h, ih]

theorem merase_minsert_absent {α : Type} (k : String) (v : α) (m : List (String × α))
    (h : mlookup k m = none) : merase k (minsert k v m) = m := by
  rw [minsert_absent k v m h, merase_append, merase_absent k m h]
  simp [merase]

theorem ClearB_SetB_cancel (b : BitSet) (i : Nat) (hlt : i < b.length)
    (htest : b.TestB i = false) : (b.SetB i).ClearB i = b := by
  have hmem : i ∉ b.elems := by
    have hc : b.elems.contains i = false := by
      simpa [BitSet.TestB, hlt] using htest
    simpa using hc
  have hmax : max b.length (i + 1) = b.length :=
    Nat.max_eq_left (Nat.succ_le_of_lt hlt)
  simp [BitSet.SetB, BitSet.ClearB, hmem, hmax, hlt, List.erase_cons_head]

/-- C8 counterexample: with a lease holding 10.0.0.10 (bit 0 set),
adding a binding for a different MAC on the same IP and then deleting it
clears bit 0 even though the lease is still present, so the subnet does
not return to its pre-call state (and no lease was reclaimed: the lease
map is untouched by both operations). -/
theorem c8_counterexample :
    (mlookup "sub1" (((dt8.AddBinding "sub1" bindC8).1.DeleteBinding "sub1"
        "aa:bb:cc:00:00:02").1.subnets)).map (fun s => s.activeBits.TestB 0) =
      some false ∧
    (mlookup "sub1" dt8.subnets).map (fun s => s.activeBits.TestB 0) = some true ∧
    (mlookup "sub1" (((dt8.AddBinding "sub1" bindC8).1.DeleteBinding "sub1"
        "aa:bb:cc:00:00:02").1.subnets)).map Subnet.leases =
      (mlookup "sub1" dt8.subnets).map Subnet.leases ∧
    (mlookup "sub1" (((dt8.AddBinding "sub1" bindC8).1.DeleteBinding "sub1"
        "aa:bb:cc:00:00:02").1.subnets)) ≠ some subC8 := by decide

/-- C8 amended: `addBinding` followed by `deleteBinding` for the same
MAC restores the subnet exactly, provided no binding already exists for
that MAC and, when the binding's IP is in the active range, its bit
index is within the bitset and currently clear (in particular no lease
holds that IP).  Without the clear-bit proviso the claim fails, because
`deleteBinding` clears the bit unconditionally (see the
counterexample). -/
theorem c8_add_delete_restores (dt : DataTracker) (nm : String) (s : Subnet) (b : Binding)
    (hs : mlookup nm dt.subnets = some s)
    (hb : mlookup b.mac s.bindings = none)
    (hbit : ipInRange s.activeStart s.activeEnd b.ip = true →
      goUint (ipRange s.activeStart b.ip - 1) < s.activeBits.length ∧
      s.activeBits.TestB (goUint (ipRange s.activeStart b.ip - 1)) = false) :
    mlookup nm (((dt.AddBinding nm b).1.DeleteBinding nm b.mac).1.subnets) = some s := by
  have hmb : mlookup b.mac (minsert b.mac b s.bindings) = some b := by
    rw [mlookup_minsert]
    simp
  by_cases hir : ipInRange s.activeStart s.activeEnd b.ip = true
  · obtain ⟨hlt, htest⟩ := hbit hir
    have h1 : dt.AddBinding nm b =
        (({ dt with subnets := (minsert nm ({ s with
            activeBits := s.activeBits.SetB (goUint (ipRange s.activeStart b.ip - 1)),
            bindings := minsert b.mac b s.bindings }) dt.subnets) }
          : DataTracker).saveData, none, 200) := by
      simp [DataTracker.AddBinding, hs, hb, hir]
    rw [h1]
    have h2 : mlookup nm (({ dt with subnets := (minsert nm ({ s with
        activeBits := s.activeBits.SetB (goUint (ipRange s.activeStart b.ip - 1)),
        bindings := minsert b.mac b s.bindings }) dt.subnets) }
          : DataTracker).saveData).subnets = some { s with
        activeBits := s.activeBits.SetB (goUint (ipRange s.activeStart b.ip - 1)),
        bindings := minsert b.mac b s.bindings } := by
      simp [DataTracker.saveData, mlookup_minsert]
    simp only [DataTracker.DeleteBinding, h2]
    rw [hmb]
    simp only [DataTracker.saveData]
    simp [hir, ClearB_SetB_cancel _ _ hlt htest, merase_minsert_absent _ _ _ hb,
      mlookup_minsert]
  · have hirf : ipInRange s.activeStart s.activeEnd b.ip = false :=
      Bool.not_eq_true _ ▸ Bool.of_not_eq_true hir
    have h1 : dt.AddBinding nm b =
        (({ dt with subnets := (minsert nm ({ s with
            activeBits := s.activeBits,
            bindings := minsert b.mac b s.bindings }) dt.subnets) }
          : DataTracker).saveData, none, 200) := by
      simp [DataTracker.AddBinding, hs, hb, hirf]
    rw [h1]
    have h2 : mlookup nm (({ dt with subnets := (minsert nm ({ s with
        activeBits := s.activeBits,
        bindings := minsert b.mac b s.bindings }) dt.subnets) }
          : DataTracker).saveData).subnets = some { s with
        activeBits := s.activeBits,
        bindings := minsert b.mac b s.bindings } := by
      simp [DataTracker.saveData, mlookup_minsert]
    simp only [DataTracker.DeleteBinding, h2]
    rw [hmb]
    simp only [DataTracker.saveData]
    simp [hirf, merase_minsert_absent _ _ _ hb, mlookup_minsert]

/-- C8 witness: the amended theorem at a concrete repository, for a
binding outside the active range (hypotheses discharged by computation). -/
theorem c8_add_delete_restores_witness :
    mlookup "sub1" (((dt8.AddBinding "sub1" bindC8w).1.DeleteBinding "sub1"
      "aa:bb:cc:00:00:03").1.subnets) = some subC8 :=
  c8_add_delete_restores dt8 "sub1" subC8 bindC8w (by decide) (by decide) (by decide)

/-- C9: confirmed.  Lease expiry is never consulted outside `getFreeIP`:
for a MAC whose lease exists and whose binding (if any) has the same IP,
`find_info` and `find_or_get_info` return the stored lease unchanged
with no state change and no persistence even when the lease expired
before `now`; and for a MAC with no lease and no binding, any lease
`find_or_get_info` creates carries the zero `ExpireTime` (it is only set
later by `update_lease_time`). -/
theorem c9_expiry_not_consulted (s : Subnet) (nic nic2 : String) (sug : Nat) (now : Int)
    (l : Lease)
    (hl : mlookup nic s.leases = some l)
    (hexp : l.expireTime < now)
    (hb : ((mlookup nic s.bindings).map Binding.ip).getD l.ip = l.ip)
    (h2l : mlookup nic2 s.leases = none)
    (h2b : mlookup nic2 s.bindings = none) :
    s.findOrGetInfo nic sug now = ((some l, mlookup nic s.bindings), s, false) ∧
    (s.findInfo nic).1 = some l ∧
    ((s.findOrGetInfo nic2 sug now).1.1.map Lease.expireTime).getD 0 = 0 := by
  refine ⟨?_, ?_, ?_⟩
  · cases hB : mlookup nic s.bindings with
    | none => simp [Subnet.findOrGetInfo, hl, hB]
    | some b =>
      have hip : b.ip = l.ip := by simpa [hB] using hb
      simp [Subnet.findOrGetInfo, hl, hB, hip]
  · simp [Subnet.findInfo, hl]
  · rcases hg : s.getFreeIP now with ⟨ipr, fl, s1⟩
    cases ipr with
    | none => simp [Subnet.findOrGetInfo, Subnet.findOrGetSlow, h2l, h2b, hg]
    | some ip => simp [Subnet.findOrGetInfo, Subnet.findOrGetSlow, h2l, h2b, hg]

/-- C9 witness: the theorem at `subC9` (a lease expired at time 5,
queried at time 100) and the fresh MAC "cc". -/
theorem c9_expiry_not_consulted_witness :
    subC9.findOrGetInfo "aa:bb:cc:00:00:01" 0 100 =
      ((some ⟨167772171, "aa:bb:cc:00:00:01", true, 5⟩,
        mlookup "aa:bb:cc:00:00:01" subC9.bindings), subC9, false) ∧
    (subC9.findInfo "aa:bb:cc:00:00:01").1 =
      some ⟨167772171, "aa:bb:cc:00:00:01", true, 5⟩ ∧
    ((subC9.findOrGetInfo "cc" 0 100).1.1.map Lease.expireTime).getD 0 = 0 :=
  c9_expiry_not_consulted subC9 "aa:bb:cc:00:00:01" "cc" 0 100
    ⟨167772171, "aa:bb:cc:00:00:01", true, 5⟩
    (by decide) (by decide) (by decide) (by decide) (by decide)

/-- C10: confirmed.  `replaceSubnet` never checks the replacement's name
for uniqueness: when the replacement's name equals another existing
subnet's name and its CIDR does not overlap any remaining subnet, the
call returns success (200, no error), installs the replacement (with the
replaced subnet's records carried forward) over that other subnet, and
leaves no entry under the replaced name — no Conflict is reported. -/
theorem c10_replace_overwrites_other (dt : DataTracker) (a bNm : String)
    (A B sub : Subnet)
    (ha : mlookup a dt.subnets = some A) (hA : A.name = a)
    (hb : mlookup bNm dt.subnets = some B)
    (hab : a ≠ bNm)
    (hnm : sub.name = bNm)
    (hov : ({ dt with subnets := merase a dt.subnets } : DataTracker).subnetsOverlap
      (carryForward A sub) = false) :
    (dt.ReplaceSubnet a sub).2.1 = none ∧
    (dt.ReplaceSubnet a sub).2.2 = 200 ∧
    mlookup bNm (dt.ReplaceSubnet a sub).1.subnets = some (carryForward A sub) ∧
    mlookup a (dt.ReplaceSubnet a sub).1.subnets = none := by
  subst hA
  subst hnm
  have key : dt.ReplaceSubnet A.name sub =
      (({ dt with subnets := (minsert (carryForward A sub).name (carryForward A sub)
          (merase A.name dt.subnets)) } : DataTracker).saveData, none, 200) := by
    simp [DataTracker.ReplaceSubnet, ha, carryForward] at hov ⊢
    simp [hov]
  rw [key]
  refine ⟨rfl, rfl, ?_, ?_⟩
  · simp [DataTracker.saveData, mlookup_minsert, carryForward]
  · have hne : ¬ (carryForward A sub).name = A.name := fun heq => hab heq.symm
    simp only [DataTracker.saveData, mlookup_minsert, hne, if_false]
    rw [mlookup_merase]
    simp

/-- C10 witness: replacing s1 (10.0.0.0/24) by a 192.168.0.0/24 subnet
named s2 overwrites the existing s2 and removes s1. -/
theorem c10_replace_overwrites_other_witness :
    (dt10.ReplaceSubnet "s1" subNew10).2.1 = none ∧
    (dt10.ReplaceSubnet "s1" subNew10).2.2 = 200 ∧
    mlookup "s2" (dt10.ReplaceSubnet "s1" subNew10).1.subnets =
      some (carryForward subA10 subNew10) ∧
    mlookup "s1" (dt10.ReplaceSubnet "s1" subNew10).1.subnets = none :=
  c10_replace_overwrites_other dt10 "s1" "s2" subA10 subB10 subNew10
    (by decide) (by decide) (by decide) (by decide) (by decide) (by decide)

theorem mlookup_append {α : Type} (k : String) (m1 m2 : List (String × α)) :
    mlookup k (m1 ++ m2) =
      match mlookup k m1 with
      | some v => some v
      | none => mlookup k m2 := by
  induction m1 with
  | nil => simp [mlookup]
  | cons p rest ih => by_cases h : p.1 = k <;> simp [mlookup, h, ih]

theorem foldl_pair_split_lease (S E : Nat) (L : List Lease)
    (b : List (String × Lease)) (c : BitSet) :
    L.foldl (fun acc v => (minsert v.mac v acc.1,
      if ipInRange S E v.ip then acc.2.SetB (goUint (ipRange S v.ip - 1)) else acc.2))
      (b, c) =
    (L.foldl (fun m v => minsert v.mac v m) b,
     L.foldl (fun bs v => if ipInRange S E v.ip then
       bs.SetB (goUint (ipRange S v.ip - 1)) else bs) c) := by
  induction L generalizing b c with
  | nil => rfl
  | cons x xs ih =>
    simp only [List.foldl_cons]
    exact ih _ _

theorem foldl_pair_split_binding (S E : Nat) (L : List Binding)
    (b : List (String × Binding)) (c : BitSet) :
    L.foldl (fun acc v => (minsert v.mac v acc.1,
      if ipInRange S E v.ip then acc.2.SetB (goUint (ipRange S v.ip - 1)) else acc.2))
      (b, c) =
    (L.foldl (fun m v => minsert v.mac v m) b,
     L.foldl (fun bs v => if ipInRange S E v.ip then
       bs.SetB (goUint (ipRange S v.ip - 1)) else bs) c) := by
  induction L generalizing b c with
  | nil => rfl
  | cons x xs ih =>
    simp only [List.foldl_cons]
    exact ih _ _

theorem foldl_minsert_rebuild {α : Type} (key : α → String) (L : List α)
    (acc : List (String × α))
    (hnd : (L.map key).Nodup)
    (hdisj : ∀ v ∈ L, mlookup (key v) acc = none) :
    L.foldl (fun m v => minsert (key v) v m) acc =
      acc ++ L.map (fun v => (key v, v)) := by
  induction L generalizing acc with
  | nil => simp
  | cons x xs ih =>
    have hx : key x ∉ xs.map key ∧ (xs.map key).Nodup := by
      rw [List.map_cons, List.nodup_cons] at hnd
      exact hnd
    simp only [List.foldl_cons]
    rw [minsert_absent (key x) x acc (hdisj x (by simp))]
    rw [ih (acc ++ [(key x, x)]) hx.2 ?_]
    · simp
    · intro v hv
      rw [mlookup_append, hdisj v (by simp [hv])]
      have hne : ¬ key x = key v := by
        intro he
        exact hx.1 (he ▸ List.mem_map_of_mem key hv)
      simp [mlookup, hne]

theorem SetB_length (b : BitSet) (j : Nat) (h : j < b.length) :
    (b.SetB j).length = b.length := by
  simp [BitSet.SetB, Nat.max_eq_left (Nat.succ_le_of_lt h)]

theorem SetB_test (b : BitSet) (j : Nat) (h : j < b.length) (i : Nat) :
    (b.SetB j).TestB i = (b.TestB i || j == i) := by
  have hmax := Nat.max_eq_left (Nat.succ_le_of_lt h)
  by_cases hji : j = i
  · subst hji
    by_cases hc : j ∈ b.elems <;>
      simp [BitSet.SetB, BitSet.TestB, hmax, h, hc]
  · have hij : ¬ i = j := fun he => hji he.symm
    by_cases hc : j ∈ b.elems <;>
      simp [BitSet.SetB, BitSet.TestB, hmax, hc, hji, hij]

theorem bitsFold_length {α : Type} (cond : α → Bool) (idx : α → Nat) (L : List α)
    (b : BitSet) (h : ∀ v ∈ L, cond v = true → idx v < b.length) :
    (L.foldl (fun bs v => if cond v then bs.SetB (idx v) else bs) b).length =
      b.length := by
  induction L generalizing b with
  | nil => rfl
  | cons x xs ih =>
    simp only [List.foldl_cons]
    by_cases hc : cond x = true
    · have hlt := h x (by simp) hc
      rw [show (if cond x then b.SetB (idx x) else b) = b.SetB (idx x) by simp [hc]]
      rw [ih (b.SetB (idx x)) (fun v hv hcv => by
        rw [SetB_length b (idx x) hlt]
        exact h v (by simp [hv]) hcv)]
      exact SetB_length b (idx x) hlt
    · have hcf : cond x = false := by simpa using hc
      rw [show (if cond x then b.SetB (idx x) else b) = b by simp [hcf]]
      exact ih b (fun v hv hcv => h v (by simp [hv]) hcv)

theorem bitsFold_test {α : Type} (cond : α → Bool) (idx : α → Nat) (L : List α)
    (b : BitSet) (h : ∀ v ∈ L, cond v = true → idx v < b.length) (i : Nat) :
    (L.foldl (fun bs v => if cond v then bs.SetB (idx v) else bs) b).TestB i =
      (b.TestB i || L.any (fun v => cond v && idx v == i)) := by
  induction L generalizing b with
  | nil => simp
  | cons x xs ih =>
    simp only [List.foldl_cons, List.any_cons]
    by_cases hc : cond x = true
    · have hlt := h x (by simp) hc
      rw [show (if cond x then b.SetB (idx x) else b) = b.SetB (idx x) by simp [hc]]
      rw [ih (b.SetB (idx x)) (fun v hv hcv => by
        rw [SetB_length b (idx x) hlt]
        exact h v (by simp [hv]) hcv)]
      rw [SetB_test b (idx x) hlt i]
      simp [hc, Bool.or_assoc]
    · have hcf : cond x = false := by simpa using hc
      rw [show (if cond x then b.SetB (idx x) else b) = b by simp [hcf]]
      rw [ih b (fun v hv hcv => h v (by simp [hv]) hcv)]
      simp [hcf]

theorem goUint_of_le (start ip : Nat) (hle : start ≤ ip) (hlt : ip - start < wordMod) :
    goUint (ipRange start ip - 1) = ip - start := by
  unfold goUint ipRange
  have h1 : (ip : Int) - (start : Int) + 1 - 1 = ((ip - start : Nat) : Int) := by
    push_cast [hle]
    ring
  rw [h1, Int.emod_eq_of_lt (Int.natCast_nonneg _) (by exact_mod_cast hlt)]
  simp

theorem goUint_rangeSize (start stop : Nat) (hle : start ≤ stop)
    (hlt : stop - start + 1 < wordMod) :
    goUint (ipRange start stop) = stop - start + 1 := by
  unfold goUint ipRange
  have h1 : (stop : Int) - (start : Int) + 1 = ((stop - start + 1 : Nat) : Int) := by
    push_cast [hle]
    ring
  rw [h1, Int.emod_eq_of_lt (Int.natCast_nonneg _) (by exact_mod_cast hlt)]
  simp

theorem anyOfMap {α β : Type} (L : List α) (f : α → β) (p : β → Bool) :
    (L.map f).any p = L.any (fun a => p (f a)) := by
  induction L with
  | nil => rfl
  | cons x xs ih => simp [ih]

theorem anyCongr {α : Type} {p q : α → Bool} (L : List α) (h : ∀ v ∈ L, p v = q v) :
    L.any p = L.any q := by
  induction L with
  | nil => rfl
  | cons x xs ih =>
    simp only [List.any_cons, h x (by simp), ih (fun v hv => h v (by simp [hv]))]

theorem equivB_intro (a b : BitSet) (hlen : a.length = b.length)
    (h : ∀ i, i < a.length → a.TestB i = b.TestB i) : a.equivB b = true := by
  simp only [BitSet.equivB, Bool.and_eq_true, beq_iff_eq, List.all_eq_true]
  refine ⟨hlen, ?_⟩
  intro i hi
  have hia : i < a.length := by
    rw [List.mem_range] at hi
    omega
  simp [h i hia]

theorem idxCond_eq (S E ip i : Nat) (hSE : S ≤ E) (hE : E < u32Mod)
    (hip : ip < u32Mod) (hi : i < E - S + 1) :
    (ipInRange S E ip && (goUint (ipRange S ip - 1) == i)) = (ip == S + i) := by
  by_cases hr : S ≤ ip ∧ ip ≤ E
  · have hidx : goUint (ipRange S ip - 1) = ip - S :=
      goUint_of_le S ip hr.1
        (lt_of_le_of_lt (Nat.sub_le ip S) (lt_trans hip (by norm_num [u32Mod, wordMod])))
    have hirt : ipInRange S E ip = true := by
      simp [ipInRange, hr.1, hr.2]
    rw [hirt, hidx, Bool.true_and]
    by_cases h2 : ip - S = i
    · have h3 : ip = S + i := by omega
      simp [h2, h3]
    · have h3 : ¬ ip = S + i := by omega
      simp [h2, h3]
  · have hirf : ipInRange S E ip = false := by
      simp only [ipInRange, Bool.and_eq_false_iff, decide_eq_false_iff_not]
      omega
    rw [hirf, Bool.false_and]
    have h3 : ¬ ip = S + i := by omega
    simp [h3]

theorem mapCongr {α β : Type} {f g : α → β} (L : List α) (h : ∀ a ∈ L, f a = g a) :
    L.map f = L.map g := by
  induction L with
  | nil => rfl
  | cons x xs ih => simp [h x (by simp), ih (fun a ha => h a (by simp [ha]))]

/-- C4 counterexample: a valid subnet already carrying the two synthetic
options (the state any load produces).  The claim says the round-trip
leaves `options` unchanged because the synthetic options are injected
only if absent; `UnmarshalJSON` in fact appends them unconditionally, so
the round-trip grows the list from 2 to 4 entries and the result differs
from the original subnet in `options` alone being excluded. -/
theorem c4_counterexample :
    (okOf (Subnet.unmarshal (Subnet.marshal subC4))).map Subnet.options ≠
      some subC4.options ∧
    (okOf (Subnet.unmarshal (Subnet.marshal subC4))).map
      (fun s => s.options.length) = some 4 ∧
    subC4.options.length = 2 ∧
    (okOf (Subnet.unmarshal (Subnet.marshal subC4))).map Subnet.leases =
      some subC4.leases ∧
    (okOf (Subnet.unmarshal (Subnet.marshal subC4))).map
      (fun s => s.activeBits.equivB subC4.activeBits) = some true := by decide

/-- C4 amended: for a well-formed subnet (range inside the CIDR and
below 2^32, whole-second nonzero lease times, maps keyed by the records'
MACs without duplicates, activeBits satisfying the set-iff-record
invariant), deserializing the serialization yields a subnet equal to the
original in every field except `activeBits` — which is reconstructed
from the leases and bindings and is extensionally equal to the original
— and except `options`, which equals the original with the synthetic
subnet-mask and broadcast-address options appended unconditionally. -/
theorem c4_roundtrip_amended (s : Subnet)
    (hs1 : s.subnet.containsIp s.activeStart = true)
    (hs2 : s.subnet.containsIp s.activeEnd = true)
    (hse : s.activeStart ≤ s.activeEnd)
    (hE : s.activeEnd < u32Mod)
    (ha1 : nanosPerSecond ∣ s.activeLeaseTime) (ha2 : 0 < s.activeLeaseTime)
    (hr1 : nanosPerSecond ∣ s.reservedLeaseTime) (hr2 : 0 < s.reservedLeaseTime)
    (hlk : ∀ p ∈ s.leases, p.1 = p.2.mac)
    (hln : (s.leases.map Prod.fst).Nodup)
    (hlip : ∀ p ∈ s.leases, p.2.ip < u32Mod)
    (hbk : ∀ p ∈ s.bindings, p.1 = p.2.mac)
    (hbn : (s.bindings.map Prod.fst).Nodup)
    (hbip : ∀ p ∈ s.bindings, p.2.ip < u32Mod)
    (hinv : recordBitsOk s = true) :
    ∃ s2, Subnet.unmarshal (Subnet.marshal s) = .ok s2 ∧
      s2.name = s.name ∧ s2.subnet = s.subnet ∧ s2.nextServer = s.nextServer ∧
      s2.activeStart = s.activeStart ∧ s2.activeEnd = s.activeEnd ∧
      s2.activeLeaseTime = s.activeLeaseTime ∧
      s2.reservedLeaseTime = s.reservedLeaseTime ∧
      s2.leases = s.leases ∧ s2.bindings = s.bindings ∧
      s2.activeBits.equivB s.activeBits = true ∧
      s2.options = s.options ++
        [⟨optionSubnetMask, ipString s.subnet.mask⟩,
         ⟨optionBroadcastAddress,
          ipString (Nat.lor s.subnet.base (u32Mod - 1 - s.subnet.mask))⟩] := by
  have hnsne : (nanosPerSecond : Int) ≠ 0 := by norm_num [nanosPerSecond]
  have halt : Int.tdiv s.activeLeaseTime nanosPerSecond * nanosPerSecond =
      s.activeLeaseTime := by
    obtain ⟨c, hc⟩ := ha1
    rw [hc, Int.mul_tdiv_cancel_left _ hnsne]
    ring
  have hrlt : Int.tdiv s.reservedLeaseTime nanosPerSecond * nanosPerSecond =
      s.reservedLeaseTime := by
    obtain ⟨c, hc⟩ := hr1
    rw [hc, Int.mul_tdiv_cancel_left _ hnsne]
    ring
  have halt0 : (Int.tdiv s.activeLeaseTime nanosPerSecond * nanosPerSecond == 0)
      = false := by
    rw [halt]
    exact beq_eq_false_iff_ne.mpr (ne_of_gt ha2)
  have hrlt0 : (Int.tdiv s.reservedLeaseTime nanosPerSecond * nanosPerSecond == 0)
      = false := by
    rw [hrlt]
    exact beq_eq_false_iff_ne.mpr (ne_of_gt hr2)
  have hu32w : u32Mod < wordMod := by norm_num [u32Mod, wordMod]
  have hgn : goUint (ipRange s.activeStart s.activeEnd) =
      s.activeEnd - s.activeStart + 1 :=
    goUint_rangeSize _ _ hse (by omega)
  -- rebuilding the lease map
  have hmapL : (s.leases.map Prod.snd).map Lease.mac = s.leases.map Prod.fst := by
    rw [List.map_map]
    exact mapCongr _ (fun p hp => (hlk p hp).symm)
  have hrebL : (s.leases.map Prod.snd).foldl (fun m v => minsert v.mac v m) [] =
      s.leases := by
    rw [foldl_minsert_rebuild Lease.mac _ [] (by rw [hmapL]; exact hln)
      (fun v _ => rfl)]
    rw [List.nil_append, List.map_map]
    have hid : ∀ p ∈ s.leases, ((fun v => (Lease.mac v, v)) ∘ Prod.snd) p = id p := by
      intro p hp
      show (p.2.mac, p.2) = p
      rw [← hlk p hp]
    rw [mapCongr _ hid, List.map_id]
  have hmapB : (s.bindings.map Prod.snd).map Binding.mac = s.bindings.map Prod.fst := by
    rw [List.map_map]
    exact mapCongr _ (fun p hp => (hbk p hp).symm)
  have hrebB : (s.bindings.map Prod.snd).foldl (fun m v => minsert v.mac v m) [] =
      s.bindings := by
    rw [foldl_minsert_rebuild Binding.mac _ [] (by rw [hmapB]; exact hbn)
      (fun v _ => rfl)]
    rw [List.nil_append, List.map_map]
    have hid : ∀ p ∈ s.bindings, ((fun v => (Binding.mac v, v)) ∘ Prod.snd) p = id p := by
      intro p hp
      show (p.2.mac, p.2) = p
      rw [← hbk p hp]
    rw [mapCongr _ hid, List.map_id]
  -- the reconstructed bitsets
  have hlipv : ∀ v ∈ s.leases.map Prod.snd, v.ip < u32Mod := by
    intro v hv
    rcases List.mem_map.mp hv with ⟨p, hp, rfl⟩
    exact hlip p hp
  have hbipv : ∀ v ∈ s.bindings.map Prod.snd, v.ip < u32Mod := by
    intro v hv
    rcases List.mem_map.mp hv with ⟨p, hp, rfl⟩
    exact hbip p hp
  have hcondL : ∀ v ∈ s.leases.map Prod.snd,
      ipInRange s.activeStart s.activeEnd v.ip = true →
      goUint (ipRange s.activeStart v.ip - 1) <
        (BitSet.new (s.activeEnd - s.activeStart + 1)).length := by
    intro v hv hc
    simp only [ipInRange, Bool.and_eq_true, decide_eq_true_eq] at hc
    rw [goUint_of_le _ _ hc.1 (by have := hlipv v hv; omega)]
    show v.ip - s.activeStart < s.activeEnd - s.activeStart + 1
    omega
  have hBL := bitsFold_length (fun v => ipInRange s.activeStart s.activeEnd v.ip)
    (fun v => goUint (ipRange s.activeStart v.ip - 1)) (s.leases.map Prod.snd)
    (BitSet.new (s.activeEnd - s.activeStart + 1)) hcondL
  have hcondB : ∀ v ∈ s.bindings.map Prod.snd,
      ipInRange s.activeStart s.activeEnd v.ip = true →
      goUint (ipRange s.activeStart v.ip - 1) <
        ((s.leases.map Prod.snd).foldl
          (fun bs v => if ipInRange s.activeStart s.activeEnd v.ip then
            bs.SetB (goUint (ipRange s.activeStart v.ip - 1)) else bs)
          (BitSet.new (s.activeEnd - s.activeStart + 1))).length := by
    intro v hv hc
    rw [hBL]
    simp only [ipInRange, Bool.and_eq_true, decide_eq_true_eq] at hc
    rw [goUint_of_le _ _ hc.1 (by have := hbipv v hv; omega)]
    show v.ip - s.activeStart < s.activeEnd - s.activeStart + 1
    omega
  have hBB := bitsFold_length (fun v => ipInRange s.activeStart s.activeEnd v.ip)
    (fun v => goUint (ipRange s.activeStart v.ip - 1)) (s.bindings.map Prod.snd)
    _ hcondB
  -- evaluate the round trip
  have hu : Subnet.unmarshal (Subnet.marshal s) = .ok
      { name := s.name
        subnet := s.subnet
        nextServer := s.nextServer
        activeStart := s.activeStart
        activeEnd := s.activeEnd
        activeLeaseTime := s.activeLeaseTime
        reservedLeaseTime := s.reservedLeaseTime
        activeBits := ((s.bindings.map Prod.snd).foldl
          (fun bs v => if ipInRange s.activeStart s.activeEnd v.ip then
            bs.SetB (goUint (ipRange s.activeStart v.ip - 1)) else bs)
          ((s.leases.map Prod.snd).foldl
            (fun bs v => if ipInRange s.activeStart s.activeEnd v.ip then
              bs.SetB (goUint (ipRange s.activeStart v.ip - 1)) else bs)
            (BitSet.new (s.activeEnd - s.activeStart + 1))))
        leases := s.leases
        bindings := s.bindings
        options := s.options ++
          [⟨optionSubnetMask, ipString s.subnet.mask⟩,
           ⟨optionBroadcastAddress,
            ipString (Nat.lor s.subnet.base (u32Mod - 1 - s.subnet.mask))⟩] } := by
    unfold Subnet.marshal Subnet.unmarshal
    simp only [hs1, hs2, Bool.not_true, Bool.false_eq_true, if_false, halt0, hrlt0]
    simp only [halt, hrlt, hgn]
    rw [foldl_pair_split_lease, foldl_pair_split_binding]
    simp only [hrebL, hrebB]
  refine ⟨_, hu, rfl, rfl, rfl, rfl, rfl, rfl, rfl, rfl, rfl, ?_, rfl⟩
  -- the reconstructed bits are extensionally the original bits
  have hinv' := hinv
  simp only [recordBitsOk, Bool.and_eq_true, beq_iff_eq, List.all_eq_true] at hinv'
  obtain ⟨hinv1, hinv2⟩ := hinv'
  have hlen0 : ((s.bindings.map Prod.snd).foldl
      (fun bs v => if ipInRange s.activeStart s.activeEnd v.ip then
        bs.SetB (goUint (ipRange s.activeStart v.ip - 1)) else bs)
      ((s.leases.map Prod.snd).foldl
        (fun bs v => if ipInRange s.activeStart s.activeEnd v.ip then
          bs.SetB (goUint (ipRange s.activeStart v.ip - 1)) else bs)
        (BitSet.new (s.activeEnd - s.activeStart + 1)))).length =
      s.activeEnd - s.activeStart + 1 := by
    rw [hBB, hBL]
    rfl
  apply equivB_intro
  · rw [hlen0, hinv1, hgn]
  · intro i hi
    rw [hlen0] at hi
    rw [bitsFold_test _ _ _ _ hcondB i, bitsFold_test _ _ _ _ hcondL i]
    have hnewt : (BitSet.new (s.activeEnd - s.activeStart + 1)).TestB i = false := by
      simp [BitSet.new, BitSet.TestB]
    rw [hnewt, Bool.false_or]
    have hanyL : (s.leases.map Prod.snd).any
        (fun v => ipInRange s.activeStart s.activeEnd v.ip &&
          (goUint (ipRange s.activeStart v.ip - 1) == i)) =
        s.leases.any (fun p => p.2.ip == s.activeStart + i) := by
      refine (anyOfMap s.leases Prod.snd _).trans (anyCongr _ ?_)
      intro p hp
      show (ipInRange s.activeStart s.activeEnd p.2.ip &&
        (goUint (ipRange s.activeStart p.2.ip - 1) == i)) = (p.2.ip == s.activeStart + i)
      exact idxCond_eq s.activeStart s.activeEnd p.2.ip i hse hE (hlip p hp) hi
    have hanyB : (s.bindings.map Prod.snd).any
        (fun v => ipInRange s.activeStart s.activeEnd v.ip &&
          (goUint (ipRange s.activeStart v.ip - 1) == i)) =
        s.bindings.any (fun p => p.2.ip == s.activeStart + i) := by
      refine (anyOfMap s.bindings Prod.snd _).trans (anyCongr _ ?_)
      intro p hp
      show (ipInRange s.activeStart s.activeEnd p.2.ip &&
        (goUint (ipRange s.activeStart p.2.ip - 1) == i)) = (p.2.ip == s.activeStart + i)
      exact idxCond_eq s.activeStart s.activeEnd p.2.ip i hse hE (hbip p hp) hi
    rw [hanyL, hanyB]
    have hi' : i < s.activeBits.length := by
      rw [hinv1, hgn]
      exact hi
    rw [hinv2 i (List.mem_range.mpr hi')]

/-- C4 witness: the amended round-trip theorem applied to `subC4`, a
populated well-formed subnet; all well-formedness hypotheses are
discharged by computation. -/
theorem c4_roundtrip_amended_witness :
    ∃ s2, Subnet.unmarshal (Subnet.marshal subC4) = .ok s2 ∧
      s2.name = subC4.name ∧ s2.subnet = subC4.subnet ∧
      s2.nextServer = subC4.nextServer ∧
      s2.activeStart = subC4.activeStart ∧ s2.activeEnd = subC4.activeEnd ∧
      s2.activeLeaseTime = subC4.activeLeaseTime ∧
      s2.reservedLeaseTime = subC4.reservedLeaseTime ∧
      s2.leases = subC4.leases ∧ s2.bindings = subC4.bindings ∧
      s2.activeBits.equivB subC4.activeBits = true ∧
      s2.options = subC4.options ++
        [⟨optionSubnetMask, ipString subC4.subnet.mask⟩,
         ⟨optionBroadcastAddress,
          ipString (Nat.lor subC4.subnet.base (u32Mod - 1 - subC4.subnet.mask))⟩] :=
  c4_roundtrip_amended subC4 (by decide) (by decide) (by decide) (by decide)
    (by decide) (by decide) (by decide) (by decide) (by decide) (by decide)
    (by decide) (by decide) (by decide) (by decide) (by decide)

end OCB
